/-
Verification of the tree post-processing layer of `code_ast`
(src/code_ast/main.py): syntax-error policy enforcement via tree
traversal, and the recursive component-extraction algorithm
`get_all_components`.

The tree-sitter `Node` is embedded as a rose tree carrying the kind tag
(`type`), the span coordinates (`start_point`, `end_point`, each a
(row, column) pair of naturals, as in tree-sitter), and the ordered list
of children.  The external parser and per-language configuration are
collaborators: the parser is passed in as a function argument, the
configuration is the value object it produces.
-/
import Mathlib

/-- A tree-sitter syntax-tree node: kind tag, span, ordered children. -/
inductive Node : Type where
  | mk : (type : String) → (start_point : Nat × Nat) → (end_point : Nat × Nat) →
      (children : List Node) → Node

def Node.type : Node → String
  | Node.mk t _ _ _ => t

def Node.start_point : Node → Nat × Nat
  | Node.mk _ s _ _ => s

def Node.end_point : Node → Nat × Nat
  | Node.mk _ _ e _ => e

def Node.children : Node → List Node
  | Node.mk _ _ _ c => c

@[simp] theorem Node.type_mk (t : String) (s e : Nat × Nat) (cs : List Node) :
    (Node.mk t s e cs).type = t := rfl

@[simp] theorem Node.start_point_mk (t : String) (s e : Nat × Nat) (cs : List Node) :
    (Node.mk t s e cs).start_point = s := rfl

@[simp] theorem Node.end_point_mk (t : String) (s e : Nat × Nat) (cs : List Node) :
    (Node.mk t s e cs).end_point = e := rfl

@[simp] theorem Node.children_mk (t : String) (s e : Nat × Nat) (cs : List Node) :
    (Node.mk t s e cs).children = cs := rfl

theorem Node.sizeOf_children_lt (n : Node) : sizeOf n.children < sizeOf n := by
  cases n with
  | mk t s e cs => simp [Node.children]

theorem Node.sizeOf_mem_children_lt {c : Node} {n : Node} (h : c ∈ n.children) :
    sizeOf c < sizeOf n :=
  lt_trans (List.sizeOf_lt_of_mem h) n.sizeOf_children_lt

/-- The fixed classification table of atomic component kinds
(`META_TYPES` in src/code_ast/main.py). -/
def META_TYPES : List String :=
  ["string", "docstring", "comment", "class_definition", "function_definition"]

/-- Python `str.endswith(suffix)`, embedded over the character list. -/
def endswith (s suffix : String) : Bool :=
  suffix.data.isSuffixOf s.data

/-- Python `str.strip()`: the string with leading and trailing whitespace
removed, embedded over the character list. -/
def strip (s : String) : String :=
  ⟨((s.data.dropWhile Char.isWhitespace).reverse.dropWhile Char.isWhitespace).reverse⟩

/-- Chain-collapse: the `while len(root_node.children) == 1:
root_node = root_node.children[0]` loop at the top of `get_all_components`. -/
def collapse (n : Node) : Node :=
  match n with
  | Node.mk _ _ _ [c] => collapse c
  | Node.mk t s e [] => Node.mk t s e []
  | Node.mk t s e (a :: b :: rest) => Node.mk t s e (a :: b :: rest)

theorem collapse_sizeOf_le (n : Node) : sizeOf (collapse n) ≤ sizeOf n := by
  match n with
  | Node.mk t s e [c] =>
    have h1 : collapse (Node.mk t s e [c]) = collapse c := by simp [collapse]
    have h2 := collapse_sizeOf_le c
    rw [h1]
    refine le_trans h2 ?_
    simp
    omega
  | Node.mk t s e [] => simp [collapse]
  | Node.mk t s e (a :: b :: rest) => simp [collapse]
  termination_by sizeOf n

mutual

/-- Body of `get_all_components` (src/code_ast/main.py) for a non-null
node: chain-collapse, classify against META_TYPES and the `_statement`
suffix, otherwise iterate over the children. -/
def get_all_components_node (root_node : Node) : List Node :=
  let root := collapse root_node
  if META_TYPES.contains root.type || endswith root.type "_statement" then
    [root]
  else
    get_all_components_loop root root.children
  termination_by sizeOf root_node
  decreasing_by
    have h1 := Node.sizeOf_children_lt (collapse root_node)
    have h2 := collapse_sizeOf_le root_node
    omega

/-- The `for i, child in enumerate(children):` loop of
`get_all_components`: a leaf child, a META-typed child, or any child of a
`_statement`-typed parent is appended as-is; otherwise the extraction
recurses into the child. -/
def get_all_components_loop (root_node : Node) (cs : List Node) : List Node :=
  match cs with
  | [] => []
  | child :: rest =>
    (if child.children.length == 0 || META_TYPES.contains child.type ||
        endswith root_node.type "_statement" then
      [child]
    else
      get_all_components_node child) ++ get_all_components_loop root_node rest
  termination_by sizeOf cs
  decreasing_by
    all_goals simp
    omega

end

/-- The entry point `get_all_components(root_node)`: a falsy (None) root
yields the empty sequence, otherwise the recursive extraction runs. -/
def get_all_components : Option Node → List Node
  | none => []
  | some root_node => get_all_components_node root_node

/-- The positional error message builder `_construct_error_msg` of
src/code_ast/main.py, with the % formatting written out as string
concatenation (the source typos "snipet" and "occured" are kept
bit-exact). -/
def _construct_error_msg (node : Node) : String :=
  let start_line := node.start_point.1
  let start_char := node.start_point.2
  let end_line := node.end_point.1
  let end_char := node.end_point.2
  let position :=
    if start_line == end_line then
      "in line " ++ toString start_line ++ " [pos. " ++ toString start_char ++
        " - " ++ toString end_char ++ "]"
    else
      "inbetween line " ++ toString start_line ++ " (start: " ++ toString start_char ++
        ") to line " ++ toString end_line ++ " (end: " ++ toString end_char ++ ")"
  "Problem while parsing given code snipet. Error occured " ++ position

/-- The `ErrorVisitor` class of src/code_ast/main.py: an ASTVisitor
specialization holding the configured reaction to error nodes
(`error_mode`). -/
structure ErrorVisitor where
  error_mode : String

/-- The `visit_ERROR` handler of `ErrorVisitor` (src/code_ast/main.py).
An exception is modelled as `Except.error msg`; the `warn` branch of the
source calls `logger.warn(_construct_error_msg(node))`, modelled as the
returned list of emitted log lines; any other mode falls through and the
handler does nothing. -/
def ErrorVisitor.visit_ERROR (v : ErrorVisitor) (node : Node) : Except String (List String) :=
  if v.error_mode == "raise" then
    Except.error (_construct_error_msg node)
  else if v.error_mode == "warn" then
    Except.ok [_construct_error_msg node]
  else
    Except.ok []

mutual

/-- Modelled from the spec: the `ASTVisitor` base class (module `visitor`)
is not under src/.  Per the spec (section 4.1) it performs a depth-first
pre-order walk, visiting every node exactly once, parent before children,
dispatching to the handler registered for the node kind — here only
`visit_ERROR` for kind "ERROR" — and falling through to a no-op default
handler otherwise.  The result collects the visited nodes in order together
with the warning log lines, or aborts with the message of the exception the
handler raised. -/
def ErrorVisitor.visit (v : ErrorVisitor) (node : Node) : Except String (List Node × List String) :=
  match (if node.type == "ERROR" then v.visit_ERROR node else Except.ok []) with
  | Except.error m => Except.error m
  | Except.ok logs =>
    match ErrorVisitor.visitList v node.children with
    | Except.error m => Except.error m
    | Except.ok rest => Except.ok (node :: rest.1, logs ++ rest.2)
  termination_by sizeOf node
  decreasing_by
    exact Node.sizeOf_children_lt node

/-- Modelled from the spec: left-to-right traversal of a child list by the
`ASTVisitor` depth-first walk, propagating the first raised exception. -/
def ErrorVisitor.visitList (v : ErrorVisitor) (cs : List Node) : Except String (List Node × List String) :=
  match cs with
  | [] => Except.ok ([], [])
  | c :: rest =>
    match ErrorVisitor.visit v c with
    | Except.error m => Except.error m
    | Except.ok r1 =>
      match ErrorVisitor.visitList v rest with
      | Except.error m => Except.error m
      | Except.ok r2 => Except.ok (r1.1 ++ r2.1, r1.2 ++ r2.2)
  termination_by sizeOf cs
  decreasing_by
    all_goals simp
    omega

end

/-- The `check_tree_for_errors(tree, mode)` function of
src/code_ast/main.py: under "ignore" it returns before constructing the
visitor (no traversal, no logs); otherwise `ErrorVisitor(mode)(tree)`
walks the tree. -/
def check_tree_for_errors (tree : Node) (mode : String) : Except String (List Node × List String) :=
  if mode == "ignore" then
    Except.ok ([], [])
  else
    ErrorVisitor.visit ⟨mode⟩ tree

mutual

/-- Depth-first pre-order listing of the nodes of a tree (the visit order
the spec prescribes for the ASTVisitor walk). -/
def preorder (node : Node) : List Node :=
  node :: preorderList node.children
  termination_by sizeOf node
  decreasing_by
    exact Node.sizeOf_children_lt node

/-- Pre-order listing of a forest, left to right. -/
def preorderList (cs : List Node) : List Node :=
  match cs with
  | [] => []
  | c :: rest => preorder c ++ preorderList rest
  termination_by sizeOf cs
  decreasing_by
    all_goals simp
    omega

end

/-- Exceptions `ast_parser` can surface, by Python exception class:
`ValueError` for blank input, `NotImplementedError` from `_lang_detect`,
and `SyntaxError` raised by the error visitor under the "raise" policy. -/
inductive AstError : Type where
  | ValueError : String → AstError
  | NotImplementedError : String → AstError
  | SyntaxError : String → AstError
deriving DecidableEq

/-- The `ParserConfig` value object (external module `config`): exposes the
resolved language and the `syntax_error` policy keyword (field named
`error_mode` here to mirror the visitor; "raise" is the source default). -/
structure ParserConfig where
  lang : String
  error_mode : String

/-- The `SourceCodeAST` wrapper (module `tree_sitter_ast`): configuration,
parsed tree and the normalized source code returned by the parser. -/
structure SourceCodeAST where
  config : ParserConfig
  tree : Node
  code : String

/-- The message of the `NotImplementedError` raised by `_lang_detect`
(src/code_ast/main.py). -/
def _lang_detect_msg : String :=
  "Guessing the language automatically is currently not implemented. " ++
    "Please specify a language with the lang keyword\n code_tokenize.tokenize(code, lang = your_lang)"

/-- The `_lang_detect` helper of src/code_ast/main.py: unconditionally
raises `NotImplementedError`. -/
def _lang_detect (source_code : String) : Except AstError String :=
  Except.error (AstError.NotImplementedError _lang_detect_msg)

/-- The `ast_parser` entry point of src/code_ast/main.py.  The external
incremental parser is the collaborator argument `parse` (contract:
`parse(source) -> (tree, normalized code)`); `error_mode` is the
`syntax_error` keyword argument consumed by `ParserConfig` (the source
default is "raise").  The guards run in source order: blank input raises
`ValueError` first, then `lang == "guess"` triggers `_lang_detect`, then
the tree is parsed and validated against the policy. -/
def astParser (parse : String → Node × String) (source_code : String)
    (lang : String) (error_mode : String) : Except AstError SourceCodeAST :=
  if (strip source_code).length == 0 then
    Except.error (AstError.ValueError
      ("The code string is empty. Cannot tokenize anything empty: " ++ source_code))
  else
    match (if lang == "guess" then _lang_detect source_code else Except.ok lang) with
    | Except.error e => Except.error e
    | Except.ok lang =>
      let config : ParserConfig := ⟨lang, error_mode⟩
      let (tree, code) := parse source_code
      match check_tree_for_errors tree config.error_mode with
      | Except.error m => Except.error (AstError.SyntaxError m)
      | Except.ok _ => Except.ok ⟨config, tree, code⟩

/-- Ordering on tree-sitter points (row, column): lexicographic, the order
of positions in the source text. -/
def posLe (a b : Nat × Nat) : Prop :=
  a.1 < b.1 ∨ (a.1 = b.1 ∧ a.2 ≤ b.2)

instance (a b : Nat × Nat) : Decidable (posLe a b) := by
  unfold posLe
  infer_instance

/-- Consecutive elements of the list have separated, source-ordered spans:
each node ends no later than the next one starts (so spans do not overlap
and appear in non-decreasing source order). -/
def SpanOrdered : List Node → Prop
  | a :: b :: rest => posLe a.end_point b.start_point ∧ SpanOrdered (b :: rest)
  | _ => True

instance instDecidableSpanOrdered : (l : List Node) → Decidable (SpanOrdered l)
  | [] => Decidable.isTrue trivial
  | [_] => Decidable.isTrue trivial
  | a :: b :: rest =>
    have hd : Decidable (SpanOrdered (b :: rest)) := instDecidableSpanOrdered (b :: rest)
    @instDecidableAnd _ _ (inferInstance) hd

mutual

/-- The span invariant the external parser guarantees (spec section 3):
each node has a well-formed span (start no later than end) contained in
its parent span, and sibling spans are non-overlapping and ordered by
start position.  Holds recursively in every subtree. -/
def spanWF (n : Node) : Prop :=
  posLe n.start_point n.end_point ∧
  (∀ c ∈ n.children, posLe n.start_point c.start_point ∧ posLe c.end_point n.end_point) ∧
  SpanOrdered n.children ∧ spanWFList n.children
  termination_by sizeOf n
  decreasing_by
    exact Node.sizeOf_children_lt n

/-- The span invariant for every tree of a forest. -/
def spanWFList (cs : List Node) : Prop :=
  match cs with
  | [] => True
  | c :: rest => spanWF c ∧ spanWFList rest
  termination_by sizeOf cs
  decreasing_by
    all_goals simp
    omega

end

mutual

/-- Variant of the extraction body in which the per-child condition drops
the parent-kind disjunct `root_node.type.endswith("_statement")` (the
spec's simplified reading of the loop in section 4.3, step 4). -/
def get_all_components_node_simplified (root_node : Node) : List Node :=
  let root := collapse root_node
  if META_TYPES.contains root.type || endswith root.type "_statement" then
    [root]
  else
    get_all_components_loop_simplified root root.children
  termination_by sizeOf root_node
  decreasing_by
    have h1 := Node.sizeOf_children_lt (collapse root_node)
    have h2 := collapse_sizeOf_le root_node
    omega

/-- The per-child loop of the simplified variant: only the leaf check and
the child META_TYPES check remain. -/
def get_all_components_loop_simplified (root_node : Node) (cs : List Node) : List Node :=
  match cs with
  | [] => []
  | child :: rest =>
    (if child.children.length == 0 || META_TYPES.contains child.type then
      [child]
    else
      get_all_components_node_simplified child) ++
      get_all_components_loop_simplified root_node rest
  termination_by sizeOf cs
  decreasing_by
    all_goals simp
    omega

end

/-- Entry point of the simplified extraction variant. -/
def get_all_components_simplified : Option Node → List Node
  | none => []
  | some root_node => get_all_components_node_simplified root_node

/-
Helper lemmas: unfolding equations for the recursive definitions and
basic facts about `collapse`, spans and the traversal.
-/

theorem collapse_nil (t : String) (s e : Nat × Nat) :
    collapse (Node.mk t s e []) = Node.mk t s e [] := by
  simp [collapse]

theorem collapse_single (t : String) (s e : Nat × Nat) (c : Node) :
    collapse (Node.mk t s e [c]) = collapse c := by
  simp [collapse]

theorem collapse_two (t : String) (s e : Nat × Nat) (a b : Node) (rest : List Node) :
    collapse (Node.mk t s e (a :: b :: rest)) = Node.mk t s e (a :: b :: rest) := by
  simp [collapse]

theorem collapse_eq_self_of_length_ne_one (n : Node) (h : n.children.length ≠ 1) :
    collapse n = n := by
  cases n with
  | mk t s e cs =>
    match cs with
    | [] => exact collapse_nil t s e
    | [c] => simp [Node.children] at h
    | a :: b :: rest => exact collapse_two t s e a b rest

theorem get_all_components_node_eq (n : Node) :
    get_all_components_node n =
      if META_TYPES.contains (collapse n).type || endswith (collapse n).type "_statement" then
        [collapse n]
      else get_all_components_loop (collapse n) (collapse n).children := by
  rw [get_all_components_node]

theorem get_all_components_loop_nil (r : Node) : get_all_components_loop r [] = [] := by
  simp [get_all_components_loop]

theorem get_all_components_loop_cons (r child : Node) (rest : List Node) :
    get_all_components_loop r (child :: rest) =
      (if child.children.length == 0 || META_TYPES.contains child.type ||
          endswith r.type "_statement" then
        [child]
      else
        get_all_components_node child) ++ get_all_components_loop r rest := by
  rw [get_all_components_loop]

theorem get_all_components_node_simplified_eq (n : Node) :
    get_all_components_node_simplified n =
      if META_TYPES.contains (collapse n).type || endswith (collapse n).type "_statement" then
        [collapse n]
      else get_all_components_loop_simplified (collapse n) (collapse n).children := by
  rw [get_all_components_node_simplified]

theorem get_all_components_loop_simplified_nil (r : Node) :
    get_all_components_loop_simplified r [] = [] := by
  simp [get_all_components_loop_simplified]

theorem get_all_components_loop_simplified_cons (r child : Node) (rest : List Node) :
    get_all_components_loop_simplified r (child :: rest) =
      (if child.children.length == 0 || META_TYPES.contains child.type then
        [child]
      else
        get_all_components_node_simplified child) ++
        get_all_components_loop_simplified r rest := by
  rw [get_all_components_loop_simplified]

theorem preorder_eq (n : Node) : preorder n = n :: preorderList n.children := by
  rw [preorder]

theorem preorderList_nil : preorderList [] = [] := by
  simp [preorderList]

theorem preorderList_cons (c : Node) (rest : List Node) :
    preorderList (c :: rest) = preorder c ++ preorderList rest := by
  rw [preorderList]

theorem ErrorVisitor_visit_eq (v : ErrorVisitor) (node : Node) :
    ErrorVisitor.visit v node =
      match (if node.type == "ERROR" then v.visit_ERROR node else Except.ok []) with
      | Except.error m => Except.error m
      | Except.ok logs =>
        match ErrorVisitor.visitList v node.children with
        | Except.error m => Except.error m
        | Except.ok rest => Except.ok (node :: rest.1, logs ++ rest.2) := by
  rw [ErrorVisitor.visit]

theorem ErrorVisitor_visitList_nil (v : ErrorVisitor) :
    ErrorVisitor.visitList v [] = Except.ok ([], []) := by
  simp [ErrorVisitor.visitList]

theorem ErrorVisitor_visitList_cons (v : ErrorVisitor) (c : Node) (rest : List Node) :
    ErrorVisitor.visitList v (c :: rest) =
      match ErrorVisitor.visit v c with
      | Except.error m => Except.error m
      | Except.ok r1 =>
        match ErrorVisitor.visitList v rest with
        | Except.error m => Except.error m
        | Except.ok r2 => Except.ok (r1.1 ++ r2.1, r1.2 ++ r2.2) := by
  rw [ErrorVisitor.visitList]

theorem spanWF_eq (n : Node) :
    spanWF n =
      (posLe n.start_point n.end_point ∧
        (∀ c ∈ n.children, posLe n.start_point c.start_point ∧ posLe c.end_point n.end_point) ∧
        SpanOrdered n.children ∧ spanWFList n.children) := by
  rw [spanWF]

theorem spanWFList_nil : spanWFList [] = True := by
  simp [spanWFList]

theorem spanWFList_cons (c : Node) (rest : List Node) :
    spanWFList (c :: rest) = (spanWF c ∧ spanWFList rest) := by
  rw [spanWFList]

/-
Claim theorems.
-/

/-- C3: for every source string that is empty after trimming whitespace,
`ast_parser` fails with the blank-input ValueError (the spec's
EmptyInputError), regardless of the parser, the language tag and the
`syntax_error` policy. -/
theorem ast_parser_empty_input (parse : String → Node × String)
    (source_code lang error_mode : String)
    (h : (strip source_code).length = 0) :
    astParser parse source_code lang error_mode =
      Except.error (AstError.ValueError
        ("The code string is empty. Cannot tokenize anything empty: " ++ source_code)) := by
  simp [astParser, h]

/-- Witness for C3: the whitespace-only string "  \n " is rejected with the
ValueError under the "warn" policy and an explicit language tag. -/
theorem ast_parser_empty_input_witness :
    (strip "  \n ").length = 0 ∧
      astParser (fun s => (Node.mk "module" (0, 0) (0, 0) [], s)) "  \n " "python" "warn" =
        Except.error (AstError.ValueError
          ("The code string is empty. Cannot tokenize anything empty: " ++ "  \n ")) :=
  ⟨by decide, ast_parser_empty_input _ _ _ _ (by decide)⟩

/-- C8: under the "ignore" policy, `check_tree_for_errors` returns
immediately for every tree: no traversal happens (the visited-node list is
empty), no exception is raised and no log line is emitted. -/
theorem check_tree_ignore_returns_immediately (tree : Node) :
    check_tree_for_errors tree "ignore" = Except.ok ([], []) := rfl

/-- C7: the positional part of the error message is rendered as
"in line L [pos. S - E]" when the start line equals the end line and as
"inbetween line L1 (start: S) to line L2 (end: E)" otherwise, from the
span coordinates of the node. -/
theorem construct_error_msg_format (node : Node) (l1 c1 l2 c2 : Nat)
    (hs : node.start_point = (l1, c1)) (he : node.end_point = (l2, c2)) :
    (l1 = l2 → _construct_error_msg node =
      "Problem while parsing given code snipet. Error occured " ++
        ("in line " ++ toString l1 ++ " [pos. " ++ toString c1 ++ " - " ++ toString c2 ++ "]")) ∧
    (l1 ≠ l2 → _construct_error_msg node =
      "Problem while parsing given code snipet. Error occured " ++
        ("inbetween line " ++ toString l1 ++ " (start: " ++ toString c1 ++ ") to line " ++
          toString l2 ++ " (end: " ++ toString c2 ++ ")")) := by
  constructor <;> intro h <;> simp [_construct_error_msg, hs, he, h]

/-- Witness for C7: a same-line node and a multi-line node rendered at
concrete coordinates. -/
theorem construct_error_msg_format_witness :
    _construct_error_msg (Node.mk "ERROR" (0, 1) (0, 5) []) =
      "Problem while parsing given code snipet. Error occured " ++
        ("in line " ++ toString 0 ++ " [pos. " ++ toString 1 ++ " - " ++ toString 5 ++ "]") ∧
    _construct_error_msg (Node.mk "ERROR" (2, 1) (4, 5) []) =
      "Problem while parsing given code snipet. Error occured " ++
        ("inbetween line " ++ toString 2 ++ " (start: " ++ toString 1 ++ ") to line " ++
          toString 4 ++ " (end: " ++ toString 5 ++ ")") :=
  ⟨(construct_error_msg_format (Node.mk "ERROR" (0, 1) (0, 5) []) 0 1 0 5 rfl rfl).1 rfl,
   (construct_error_msg_format (Node.mk "ERROR" (2, 1) (4, 5) []) 2 1 4 5 rfl rfl).2 (by decide)⟩

/-- C2 fails as stated: on the empty source string, `ast_parser` with
lang = "guess" raises the blank-input ValueError, not the
NotImplementedError of `_lang_detect`, because the blank-input guard runs
first — so the failure kind is not independent of the input content. -/
theorem ast_parser_guess_empty_cex :
    astParser (fun s => (Node.mk "module" (0, 0) (0, 0) [], s)) "" "guess" "raise" =
        Except.error (AstError.ValueError
          ("The code string is empty. Cannot tokenize anything empty: " ++ "")) ∧
      ¬ ∃ m, astParser (fun s => (Node.mk "module" (0, 0) (0, 0) [], s)) "" "guess" "raise" =
        Except.error (AstError.NotImplementedError m) := by
  have hc : ((strip "").length == 0) = true := by decide
  refine ⟨by simp [astParser, hc], ?_⟩
  rintro ⟨m, hm⟩
  simp [astParser, hc] at hm

/-- C2 amended: for every source string that is non-empty after trimming
whitespace, `ast_parser` with lang = "guess" fails with the
NotImplementedError raised by `_lang_detect`, regardless of the parser and
the `syntax_error` policy. -/
theorem ast_parser_guess_nonempty (parse : String → Node × String)
    (source_code error_mode : String) (h : (strip source_code).length ≠ 0) :
    astParser parse source_code "guess" error_mode =
      Except.error (AstError.NotImplementedError _lang_detect_msg) := by
  have hb : ((strip source_code).length == 0) = false := by simpa using h
  simp [astParser, hb, _lang_detect]

/-- Witness for C2 amended: the non-blank snippet "x = 1" with
lang = "guess" yields the NotImplementedError. -/
theorem ast_parser_guess_nonempty_witness :
    (strip "x = 1").length ≠ 0 ∧
      astParser (fun s => (Node.mk "module" (0, 0) (0, 0) [], s)) "x = 1" "guess" "raise" =
        Except.error (AstError.NotImplementedError _lang_detect_msg) :=
  ⟨by decide, ast_parser_guess_nonempty _ _ _ (by decide)⟩

/-- C1 fails as stated: a META-typed node with exactly one child is
replaced by that child by the chain-collapse loop before the META_TYPES
classification runs.  Here a "string" node with a single childless "x"
child extracts to the empty sequence, not to the one-element sequence
holding the node itself. -/
theorem gac_meta_single_child_cex :
    "string" ∈ META_TYPES ∧
    get_all_components (some (Node.mk "string" (0, 0) (0, 5) [Node.mk "x" (0, 0) (0, 5) []])) =
      [] ∧
    get_all_components (some (Node.mk "string" (0, 0) (0, 5) [Node.mk "x" (0, 0) (0, 5) []])) ≠
      [Node.mk "string" (0, 0) (0, 5) [Node.mk "x" (0, 0) (0, 5) []]] := by
  have heval : get_all_components
      (some (Node.mk "string" (0, 0) (0, 5) [Node.mk "x" (0, 0) (0, 5) []])) = [] := by
    simp [get_all_components, get_all_components_node_eq, collapse, META_TYPES,
      get_all_components_loop_nil, endswith, List.isSuffixOf]
  refine ⟨by decide, heval, by rw [heval]; simp⟩

/-- C1 amended: for every node whose kind is in META_TYPES and whose child
count is not exactly one (so the chain-collapse loop leaves it in place),
`get_all_components` returns exactly the one-element sequence holding that
node. -/
theorem gac_meta_not_single_child (n : Node) (h1 : n.type ∈ META_TYPES)
    (h2 : n.children.length ≠ 1) :
    get_all_components (some n) = [n] := by
  have hc : collapse n = n := collapse_eq_self_of_length_ne_one n h2
  have hm : META_TYPES.contains n.type = true := by
    simpa using h1
  show get_all_components_node n = [n]
  rw [get_all_components_node_eq, hc, hm]
  simp

/-- Witness for C1 amended: a childless "comment" node extracts to itself. -/
theorem gac_meta_not_single_child_witness :
    ("comment" ∈ META_TYPES ∧ (Node.mk "comment" (1, 0) (1, 10) []).children.length ≠ 1) ∧
      get_all_components (some (Node.mk "comment" (1, 0) (1, 10) [])) =
        [Node.mk "comment" (1, 0) (1, 10) []] :=
  ⟨⟨by decide, by decide⟩,
   gac_meta_not_single_child (Node.mk "comment" (1, 0) (1, 10) []) (by decide) (by decide)⟩

/-- C4: a childless node whose kind is neither in META_TYPES nor ends with
"_statement" extracts to the empty sequence — the per-child loop runs over
no children — and in particular not to the one-element sequence [root]. -/
theorem gac_childless_non_meta (n : Node) (h1 : n.children = [])
    (h2 : n.type ∉ META_TYPES) (h3 : endswith n.type "_statement" = false) :
    get_all_components (some n) = [] ∧ get_all_components (some n) ≠ [n] := by
  have hc : collapse n = n := collapse_eq_self_of_length_ne_one n (by simp [h1])
  have hm : META_TYPES.contains n.type = false := by
    simpa using h2
  have heval : get_all_components (some n) = [] := by
    show get_all_components_node n = []
    rw [get_all_components_node_eq, hc, hm, h3, h1]
    simp [get_all_components_loop_nil]
  exact ⟨heval, by rw [heval]; simp⟩

/-- Witness for C4: a childless "identifier" node extracts to the empty
sequence. -/
theorem gac_childless_non_meta_witness :
    ((Node.mk "identifier" (0, 0) (0, 1) []).children = [] ∧
        "identifier" ∉ META_TYPES ∧ endswith "identifier" "_statement" = false) ∧
      get_all_components (some (Node.mk "identifier" (0, 0) (0, 1) [])) = [] :=
  ⟨⟨rfl, by decide, by decide⟩,
   (gac_childless_non_meta (Node.mk "identifier" (0, 0) (0, 1) []) rfl (by decide) (by decide)).1⟩

mutual

/-- Under a mode that is neither "raise" nor "warn", the visitor walks the
whole subtree, visiting every node in pre-order, and takes no action on
ERROR nodes: no exception, no log line. -/
theorem visit_no_action (mode : String) (h1 : mode ≠ "raise") (h2 : mode ≠ "warn")
    (n : Node) : ErrorVisitor.visit ⟨mode⟩ n = Except.ok (preorder n, []) := by
  have hh : (if n.type == "ERROR" then ErrorVisitor.visit_ERROR ⟨mode⟩ n else Except.ok []) =
      Except.ok ([] : List String) := by
    simp [ErrorVisitor.visit_ERROR, h1, h2]
  rw [ErrorVisitor_visit_eq, hh, visitList_no_action mode h1 h2 n.children, preorder_eq]
  rfl
  termination_by sizeOf n
  decreasing_by
    exact Node.sizeOf_children_lt n

/-- Forest version of `visit_no_action`. -/
theorem visitList_no_action (mode : String) (h1 : mode ≠ "raise") (h2 : mode ≠ "warn")
    (cs : List Node) : ErrorVisitor.visitList ⟨mode⟩ cs = Except.ok (preorderList cs, []) := by
  match cs with
  | [] =>
    rw [ErrorVisitor_visitList_nil, preorderList_nil]
  | c :: rest =>
    rw [ErrorVisitor_visitList_cons, visit_no_action mode h1 h2 c,
      visitList_no_action mode h1 h2 rest, preorderList_cons]
    rfl
  termination_by sizeOf cs
  decreasing_by
    all_goals simp
    omega

end

/-- C10: for every policy string outside raise/warn/ignore (a misspelled
policy, say), `check_tree_for_errors` walks the full tree — the visited
sequence is the complete pre-order listing — yet never raises and never
logs, silently behaving as if no errors exist. -/
theorem check_tree_unknown_mode (tree : Node) (mode : String)
    (h1 : mode ≠ "raise") (h2 : mode ≠ "warn") (h3 : mode ≠ "ignore") :
    check_tree_for_errors tree mode = Except.ok (preorder tree, []) := by
  rw [check_tree_for_errors]
  have hb : (mode == "ignore") = false := by simpa using h3
  simp only [hb, Bool.false_eq_true, if_false]
  exact visit_no_action mode h1 h2 tree

/-- Witness for C10: the misspelled policy "rais" fully traverses a tree
containing an ERROR node without raising or logging. -/
theorem check_tree_unknown_mode_witness :
    (("rais" : String) ≠ "raise" ∧ ("rais" : String) ≠ "warn" ∧ ("rais" : String) ≠ "ignore") ∧
      check_tree_for_errors
          (Node.mk "module" (0, 0) (1, 0) [Node.mk "ERROR" (0, 0) (0, 3) []]) "rais" =
        Except.ok ([Node.mk "module" (0, 0) (1, 0) [Node.mk "ERROR" (0, 0) (0, 3) []],
          Node.mk "ERROR" (0, 0) (0, 3) []], []) := by
  refine ⟨⟨by decide, by decide, by decide⟩, ?_⟩
  rw [check_tree_unknown_mode _ "rais" (by decide) (by decide) (by decide)]
  simp [preorder_eq, preorderList_cons, preorderList_nil]

mutual

/-- Under the "raise" policy the visitor either aborts with the message of
the first ERROR node in depth-first pre-order, or — when the subtree holds
no ERROR node — completes the walk with no log output. -/
theorem visit_raise_eq (n : Node) :
    ErrorVisitor.visit ⟨"raise"⟩ n =
      match (preorder n).filter (fun m => m.type == "ERROR") with
      | e :: _ => Except.error (_construct_error_msg e)
      | [] => Except.ok (preorder n, []) := by
  rw [ErrorVisitor_visit_eq]
  by_cases hE : (n.type == "ERROR") = true
  · have hv : ErrorVisitor.visit_ERROR ⟨"raise"⟩ n = Except.error (_construct_error_msg n) := by
      simp [ErrorVisitor.visit_ERROR]
    have hf : (preorder n).filter (fun m => m.type == "ERROR") =
        n :: ((preorderList n.children).filter (fun m => m.type == "ERROR")) := by
      rw [preorder_eq]
      exact List.filter_cons_of_pos hE
    rw [if_pos hE, hv, hf]
  · have hf : (preorder n).filter (fun m => m.type == "ERROR") =
        (preorderList n.children).filter (fun m => m.type == "ERROR") := by
      rw [preorder_eq]
      exact List.filter_cons_of_neg (by simpa using hE)
    rw [if_neg hE, visitList_raise_eq n.children, hf, preorder_eq]
    cases hfl : (preorderList n.children).filter (fun m => m.type == "ERROR") with
    | nil => rfl
    | cons e t => rfl
  termination_by sizeOf n
  decreasing_by
    exact Node.sizeOf_children_lt n

/-- Forest version of `visit_raise_eq`. -/
theorem visitList_raise_eq (cs : List Node) :
    ErrorVisitor.visitList ⟨"raise"⟩ cs =
      match (preorderList cs).filter (fun m => m.type == "ERROR") with
      | e :: _ => Except.error (_construct_error_msg e)
      | [] => Except.ok (preorderList cs, []) := by
  match cs with
  | [] =>
    rw [ErrorVisitor_visitList_nil, preorderList_nil]
    rfl
  | c :: rest =>
    rw [ErrorVisitor_visitList_cons, visit_raise_eq c, visitList_raise_eq rest,
      preorderList_cons, List.filter_append]
    cases hfc : (preorder c).filter (fun m => m.type == "ERROR") with
    | cons e t => rfl
    | nil =>
      cases hfr : (preorderList rest).filter (fun m => m.type == "ERROR") with
      | cons e t => rfl
      | nil => rfl
  termination_by sizeOf cs
  decreasing_by
    all_goals simp
    omega

end

/-- C6: under the "raise" policy, for every tree containing at least one
ERROR node, `check_tree_for_errors` fails with the SyntaxError message
built from the FIRST ERROR node in depth-first pre-order: no later error
node is reported and no aggregation occurs. -/
theorem check_tree_raise_first_error (tree : Node) (e : Node)
    (h : ((preorder tree).filter (fun m => m.type == "ERROR")).head? = some e) :
    check_tree_for_errors tree "raise" = Except.error (_construct_error_msg e) := by
  rw [check_tree_for_errors]
  have hb : (("raise" : String) == "ignore") = false := by decide
  simp only [hb, Bool.false_eq_true, if_false]
  rw [visit_raise_eq tree]
  cases hf : (preorder tree).filter (fun m => m.type == "ERROR") with
  | nil => rw [hf] at h; simp at h
  | cons x t =>
    rw [hf] at h
    simp only [List.head?_cons, Option.some.injEq] at h
    rw [h]

/-- Witness for C6: a tree with two ERROR children fails with the message
of the first one in pre-order; the second is never reported. -/
theorem check_tree_raise_first_error_witness :
    ((preorder (Node.mk "module" (0, 0) (2, 0)
        [Node.mk "ERROR" (0, 0) (0, 3) [], Node.mk "ERROR" (1, 0) (1, 4) []])).filter
          (fun m => m.type == "ERROR")).head? = some (Node.mk "ERROR" (0, 0) (0, 3) []) ∧
      check_tree_for_errors (Node.mk "module" (0, 0) (2, 0)
          [Node.mk "ERROR" (0, 0) (0, 3) [], Node.mk "ERROR" (1, 0) (1, 4) []]) "raise" =
        Except.error (_construct_error_msg (Node.mk "ERROR" (0, 0) (0, 3) [])) := by
  have h : ((preorder (Node.mk "module" (0, 0) (2, 0)
      [Node.mk "ERROR" (0, 0) (0, 3) [], Node.mk "ERROR" (1, 0) (1, 4) []])).filter
        (fun m => m.type == "ERROR")).head? = some (Node.mk "ERROR" (0, 0) (0, 3) []) := by
    simp [preorder_eq, preorderList_cons, preorderList_nil]
  exact ⟨h, check_tree_raise_first_error _ _ h⟩

mutual

/-- Dropping the parent-kind `_statement` disjunct from the per-child
condition does not change the extraction of any node: the loop only runs
when the collapsed root failed the classification, where that disjunct is
false. -/
theorem gac_node_eq_simplified (n : Node) :
    get_all_components_node n = get_all_components_node_simplified n := by
  rw [get_all_components_node_eq, get_all_components_node_simplified_eq]
  by_cases hc : (META_TYPES.contains (collapse n).type ||
      endswith (collapse n).type "_statement") = true
  · rw [if_pos hc, if_pos hc]
  · rw [if_neg hc, if_neg hc]
    have hs : endswith (collapse n).type "_statement" = false := by
      rcases Bool.or_eq_false_iff.mp (Bool.eq_false_iff.mpr hc) with ⟨-, h⟩
      exact h
    exact gac_loop_eq_simplified (collapse n) hs (collapse n).children
  termination_by sizeOf n
  decreasing_by
    have h1 := Node.sizeOf_children_lt (collapse n)
    have h2 := collapse_sizeOf_le n
    omega

/-- Loop version: when the parent root fails the `_statement` suffix test,
the per-child condition of the source loop and of the simplified loop
agree, and the loops produce the same sequence. -/
theorem gac_loop_eq_simplified (root : Node)
    (h : endswith root.type "_statement" = false) (cs : List Node) :
    get_all_components_loop root cs = get_all_components_loop_simplified root cs := by
  match cs with
  | [] => rw [get_all_components_loop_nil, get_all_components_loop_simplified_nil]
  | child :: rest =>
    rw [get_all_components_loop_cons, get_all_components_loop_simplified_cons, h,
      gac_node_eq_simplified child, gac_loop_eq_simplified root h rest, Bool.or_false]
  termination_by sizeOf cs
  decreasing_by
    all_goals simp
    omega

end

/-- C9: `get_all_components` is extensionally equal to the variant that
drops the parent-kind disjunct `root_node.type.endswith("_statement")`
from the per-child condition of the loop: whenever the loop runs, the
earlier classification step has already ruled that disjunct out. -/
theorem get_all_components_eq_simplified (o : Option Node) :
    get_all_components o = get_all_components_simplified o := by
  cases o with
  | none => rfl
  | some n => exact gac_node_eq_simplified n

theorem posLe_refl (a : Nat × Nat) : posLe a a := Or.inr ⟨rfl, le_refl _⟩

theorem posLe_trans {a b c : Nat × Nat} (h1 : posLe a b) (h2 : posLe b c) : posLe a c := by
  rcases h1 with h1 | ⟨h1e, h1c⟩ <;> rcases h2 with h2 | ⟨h2e, h2c⟩
  · exact Or.inl (lt_trans h1 h2)
  · exact Or.inl (h2e ▸ h1)
  · exact Or.inl (h1e ▸ h2)
  · exact Or.inr ⟨h1e.trans h2e, le_trans h1c h2c⟩

theorem SpanOrdered.tail {a : Node} {l : List Node} (h : SpanOrdered (a :: l)) :
    SpanOrdered l := by
  match l with
  | [] => trivial
  | b :: rest => exact h.2

theorem spanOrdered_append : ∀ (l1 l2 : List Node), SpanOrdered l1 → SpanOrdered l2 →
    (∀ x ∈ l1, ∀ y ∈ l2, posLe x.end_point y.start_point) → SpanOrdered (l1 ++ l2)
  | [], l2, _, h2, _ => by simpa using h2
  | [a], [], h1, _, _ => by simpa using h1
  | [a], b :: rest, _, h2, hlink =>
    ⟨hlink a (by simp) b (by simp), h2⟩
  | a :: a2 :: rest, l2, h1, h2, hlink =>
    ⟨h1.1, spanOrdered_append (a2 :: rest) l2 h1.2 h2
      (fun x hx y hy => hlink x (List.mem_cons_of_mem a hx) y hy)⟩

theorem spanOrdered_sep_of_mem : ∀ (c : Node) (rest : List Node), SpanOrdered (c :: rest) →
    (∀ x ∈ rest, posLe x.start_point x.end_point) →
    ∀ y ∈ rest, posLe c.end_point y.start_point
  | c, [], _, _, y, hy => absurd hy (List.not_mem_nil y)
  | c, b :: rest, h, hse, y, hy => by
    rcases List.mem_cons.mp hy with rfl | hy'
    · exact h.1
    · have hb : posLe c.end_point b.start_point := h.1
      have hbe : posLe b.start_point b.end_point := hse b (by simp)
      have hrec := spanOrdered_sep_of_mem b rest h.2
        (fun x hx => hse x (List.mem_cons_of_mem b hx)) y hy'
      exact posLe_trans (posLe_trans hb hbe) hrec

theorem spanWF.start_le_end {n : Node} (h : spanWF n) : posLe n.start_point n.end_point := by
  rw [spanWF_eq] at h
  exact h.1

theorem spanWF.children_within {n : Node} (h : spanWF n) :
    ∀ c ∈ n.children, posLe n.start_point c.start_point ∧ posLe c.end_point n.end_point := by
  rw [spanWF_eq] at h
  exact h.2.1

theorem spanWF.children_ordered {n : Node} (h : spanWF n) : SpanOrdered n.children := by
  rw [spanWF_eq] at h
  exact h.2.2.1

theorem spanWF.children_wf {n : Node} (h : spanWF n) : spanWFList n.children := by
  rw [spanWF_eq] at h
  exact h.2.2.2

theorem spanWFList_mem : ∀ (cs : List Node), spanWFList cs → ∀ c ∈ cs, spanWF c
  | [], _, c, hc => absurd hc (List.not_mem_nil c)
  | a :: rest, h, c, hc => by
    have h' : spanWF a ∧ spanWFList rest := by rw [spanWFList_cons] at h; exact h
    rcases List.mem_cons.mp hc with rfl | hc'
    · exact h'.1
    · exact spanWFList_mem rest h'.2 c hc'

theorem collapse_spanWF (n : Node) (h : spanWF n) : spanWF (collapse n) := by
  match n with
  | Node.mk t s e [c] =>
    rw [collapse_single]
    have hl := spanWF.children_wf h
    rw [Node.children_mk] at hl
    exact collapse_spanWF c (spanWFList_mem _ hl c (by simp))
  | Node.mk t s e [] => rw [collapse_nil]; exact h
  | Node.mk t s e (a :: b :: rest) => rw [collapse_two]; exact h
  termination_by sizeOf n

theorem collapse_bounds (n : Node) (h : spanWF n) :
    posLe n.start_point (collapse n).start_point ∧
      posLe (collapse n).end_point n.end_point := by
  match n with
  | Node.mk t s e [c] =>
    rw [collapse_single]
    have hwithin := spanWF.children_within h c (by rw [Node.children_mk]; simp)
    have hl := spanWF.children_wf h
    rw [Node.children_mk] at hl
    have ih := collapse_bounds c (spanWFList_mem _ hl c (by simp))
    constructor
    · exact posLe_trans (by simpa using hwithin.1) ih.1
    · exact posLe_trans ih.2 (by simpa using hwithin.2)
  | Node.mk t s e [] => rw [collapse_nil]; exact ⟨posLe_refl _, posLe_refl _⟩
  | Node.mk t s e (a :: b :: rest) =>
    rw [collapse_two]; exact ⟨posLe_refl _, posLe_refl _⟩
  termination_by sizeOf n

mutual

/-- Span soundness of the extraction body: under the parser span
invariant, the extracted sequence is span-separated and every extracted
node's span lies within the span of the node the extraction started
from. -/
theorem gac_node_sound (n : Node) (h : spanWF n) :
    SpanOrdered (get_all_components_node n) ∧
      ∀ m ∈ get_all_components_node n,
        posLe n.start_point m.start_point ∧ posLe m.end_point n.end_point := by
  have hr : spanWF (collapse n) := collapse_spanWF n h
  have hb := collapse_bounds n h
  rw [get_all_components_node_eq]
  by_cases hcls : (META_TYPES.contains (collapse n).type ||
      endswith (collapse n).type "_statement") = true
  · rw [if_pos hcls]
    refine ⟨trivial, ?_⟩
    intro m hm
    rw [List.mem_singleton] at hm
    subst hm
    exact ⟨hb.1, hb.2⟩
  · rw [if_neg hcls]
    have hloop := gac_loop_sound (collapse n) (collapse n).children
      (spanWF.children_wf hr) (spanWF.children_ordered hr)
    refine ⟨hloop.1, ?_⟩
    intro m hm
    obtain ⟨c, hc, hcs, hce⟩ := hloop.2 m hm
    have hwithin := spanWF.children_within hr c hc
    exact ⟨posLe_trans hb.1 (posLe_trans hwithin.1 hcs),
      posLe_trans (posLe_trans hce hwithin.2) hb.2⟩
  termination_by sizeOf n
  decreasing_by
    have h1 := Node.sizeOf_children_lt (collapse n)
    have h2 := collapse_sizeOf_le n
    omega

/-- Span soundness of the per-child loop: for a span-well-formed,
span-ordered child list, the loop output is span-separated and every
output node lies within the span of some child. -/
theorem gac_loop_sound (root : Node) (cs : List Node)
    (hwf : spanWFList cs) (hord : SpanOrdered cs) :
    SpanOrdered (get_all_components_loop root cs) ∧
      ∀ m ∈ get_all_components_loop root cs,
        ∃ c ∈ cs, posLe c.start_point m.start_point ∧ posLe m.end_point c.end_point := by
  match cs with
  | [] =>
    rw [get_all_components_loop_nil]
    exact ⟨trivial, fun m hm => absurd hm (List.not_mem_nil m)⟩
  | child :: rest =>
    rw [get_all_components_loop_cons]
    have hwf' : spanWF child ∧ spanWFList rest := by
      rw [spanWFList_cons] at hwf
      exact hwf
    have hblock : SpanOrdered (if (child.children.length == 0 ||
          META_TYPES.contains child.type || endswith root.type "_statement") = true then
            [child] else get_all_components_node child) ∧
        ∀ m ∈ (if (child.children.length == 0 || META_TYPES.contains child.type ||
            endswith root.type "_statement") = true then
              [child] else get_all_components_node child),
          posLe child.start_point m.start_point ∧ posLe m.end_point child.end_point := by
      by_cases hcnd : (child.children.length == 0 || META_TYPES.contains child.type ||
          endswith root.type "_statement") = true
      · rw [if_pos hcnd]
        refine ⟨trivial, ?_⟩
        intro m hm
        rw [List.mem_singleton] at hm
        subst hm
        exact ⟨posLe_refl _, posLe_refl _⟩
      · rw [if_neg hcnd]
        exact gac_node_sound child hwf'.1
    have hrest := gac_loop_sound root rest hwf'.2 (SpanOrdered.tail hord)
    have hsep : ∀ y ∈ rest, posLe child.end_point y.start_point :=
      spanOrdered_sep_of_mem child rest hord
        (fun x hx => spanWF.start_le_end (spanWFList_mem rest hwf'.2 x hx))
    constructor
    · refine spanOrdered_append _ _ hblock.1 hrest.1 ?_
      intro x hx y hy
      obtain ⟨c, hc, hcs, _⟩ := hrest.2 y hy
      exact posLe_trans (hblock.2 x hx).2 (posLe_trans (hsep c hc) hcs)
    · intro m hm
      rcases List.mem_append.mp hm with hmb | hmr
      · exact ⟨child, by simp, (hblock.2 m hmb).1, (hblock.2 m hmb).2⟩
      · obtain ⟨c, hc, h1, h2⟩ := hrest.2 m hmr
        exact ⟨c, List.mem_cons_of_mem child hc, h1, h2⟩
  termination_by sizeOf cs
  decreasing_by
    all_goals simp
    omega

end

/-- C5: for every tree satisfying the parser-guaranteed span invariant,
the spans of consecutive elements of the `get_all_components` output never
overlap and appear in non-decreasing source order. -/
theorem gac_span_ordered (n : Node) (h : spanWF n) :
    SpanOrdered (get_all_components (some n)) :=
  (gac_node_sound n h).1

/-- Witness for C5: a module holding a two-child function definition and a
two-child expression statement satisfies the span invariant, and its
extraction output is span-separated and source-ordered. -/
theorem gac_span_ordered_witness :
    spanWF (Node.mk "module" (0, 0) (3, 0)
        [Node.mk "function_definition" (0, 0) (1, 5)
          [Node.mk "def" (0, 0) (0, 3) [], Node.mk "block" (1, 0) (1, 5) []],
        Node.mk "expression_statement" (2, 0) (2, 7)
          [Node.mk "identifier" (2, 0) (2, 1) [], Node.mk "identifier" (2, 4) (2, 7) []]]) ∧
      SpanOrdered (get_all_components (some (Node.mk "module" (0, 0) (3, 0)
        [Node.mk "function_definition" (0, 0) (1, 5)
          [Node.mk "def" (0, 0) (0, 3) [], Node.mk "block" (1, 0) (1, 5) []],
        Node.mk "expression_statement" (2, 0) (2, 7)
          [Node.mk "identifier" (2, 0) (2, 1) [], Node.mk "identifier" (2, 4) (2, 7) []]]))) := by
  have hwf : spanWF (Node.mk "module" (0, 0) (3, 0)
      [Node.mk "function_definition" (0, 0) (1, 5)
        [Node.mk "def" (0, 0) (0, 3) [], Node.mk "block" (1, 0) (1, 5) []],
      Node.mk "expression_statement" (2, 0) (2, 7)
        [Node.mk "identifier" (2, 0) (2, 1) [], Node.mk "identifier" (2, 4) (2, 7) []]]) := by
    simp [spanWF_eq, spanWFList_cons, spanWFList_nil, SpanOrdered, posLe]
  exact ⟨hwf, gac_span_ordered _ hwf⟩
